import Mathlib

/-!
Shallow embedding of the fashionhubbackend Django schema
(`catalog/models.py`, `orders/models.py`, `customers/models.py`) and proofs
about its record operations.

Records are Lean structures; the database is explicit state (lists of rows);
`save`/create/delete operations are pure functions returning the new record or
an `Except` over the database state, mirroring the storage-layer semantics the
schema declares (uniqueness constraints, check constraints, `on_delete`
behaviours).  Decimal fields (`max_digits=10/12, decimal_places=2`) are
modelled as integers counting hundredths; `UUIDField` primary keys are
modelled as `Nat` identifiers.
-/

namespace FashionHub

/-! ### django.utils.text.slugify, modelled on ASCII input

`slugify(value, allow_unicode=False)` does:
1. NFKD-normalise and drop non-ASCII bytes (`encode("ascii", "ignore")`);
2. lower-case, then delete every character not matching `[\w\s-]`
   (`re.sub(r"[^\w\s-]", "", value.lower())`);
3. collapse every run of hyphens/whitespace to a single hyphen
   (`re.sub(r"[-\s]+", "-", value)`);
4. strip leading and trailing hyphens and underscores (`.strip("-_")`).

We model the ASCII fragment: step 1 becomes a filter keeping code points
below 128 (NFKD decomposition of accented letters is not modelled). -/

/-- The Python class `\w` on an ASCII, already lower-cased character: `[a-z0-9_]`
(upper-case letters cannot occur after `.lower()`). -/
def isWordChar (c : Char) : Bool :=
  c.isAlphanum || c == '_'

/-- The Python class `\s` on ASCII: space, tab, newline, carriage return,
vertical tab, form feed. -/
def isSpaceChar (c : Char) : Bool :=
  c == ' ' || c == '\t' || c == '\n' || c == '\r' ||
  c == Char.ofNat 11 || c == Char.ofNat 12

/-- A character replaced by a hyphen in step 3: whitespace or hyphen. -/
def isSep (c : Char) : Bool :=
  isSpaceChar c || c == '-'

/-- Step 3: `re.sub(r"[-\s]+", "-", value)`.  The boolean argument records
whether the previous character was part of a separator run. -/
def collapseAux : Bool → List Char → List Char
  | _, [] => []
  | prevSep, c :: rest =>
    if isSep c then
      if prevSep then collapseAux true rest
      else '-' :: collapseAux true rest
    else c :: collapseAux false rest

/-- Step 4: Python `str.strip("-_")`. -/
def stripHyphenUnderscore (l : List Char) : List Char :=
  ((l.dropWhile fun c => c == '-' || c == '_').reverse.dropWhile
    fun c => c == '-' || c == '_').reverse

/-- `django.utils.text.slugify` with `allow_unicode=False`, on ASCII input. -/
def slugify (s : String) : String :=
  let ascii := s.data.filter fun c => c.toNat < 128
  let lowered := ascii.map Char.toLower
  let kept := lowered.filter fun c => isWordChar c || isSpaceChar c || c == '-'
  String.mk (stripHyphenUnderscore (collapseAux false kept))

/-! ### catalog.models -/

/-- `catalog.models.Category`.  `TimeStampedModel` contributes the UUID
primary key (modelled as `Nat`); timestamps are not modelled. -/
structure Category where
  id : Nat
  name : String
  slug : String
  parent : Option Nat
  description : String
  is_active : Bool
  sort_order : Nat
deriving DecidableEq, Repr

/-- `Category.save`: derive the slug from the name when it is blank, then
persist (`if not self.slug: self.slug = slugify(self.name)[:140]`). -/
def Category.save (c : Category) : Category :=
  if c.slug = "" then { c with slug := (slugify c.name).take 140 } else c

/-- `catalog.models.Brand`. -/
structure Brand where
  id : Nat
  name : String
  slug : String
deriving DecidableEq, Repr

/-- `Brand.save`: same slug derivation as `Category.save`. -/
def Brand.save (b : Brand) : Brand :=
  if b.slug = "" then { b with slug := (slugify b.name).take 140 } else b

/-- `catalog.models.Product`.  `base_price` and `tax_rate_percent` are
decimals modelled in hundredths. -/
structure Product where
  id : Nat
  name : String
  slug : String
  category : Nat
  brand : Option Nat
  description : String
  is_active : Bool
  is_featured : Bool
  meta_title : String
  meta_description : String
  base_price : Int
  currency : String
  tax_rate_percent : Int
deriving DecidableEq, Repr

/-- `Product.save`: slug derivation truncated to the 220-character field. -/
def Product.save (p : Product) : Product :=
  if p.slug = "" then { p with slug := (slugify p.name).take 220 } else p

/-- `catalog.models.ProductVariant`.  `attributes` is the M2M link to
`AttributeValue` rows; prices are decimals in hundredths; `stock` and
`weight_grams` are `PositiveIntegerField`s (non-negative by type). -/
structure ProductVariant where
  id : Nat
  product : Nat
  sku : String
  attributes : List Nat
  mrp_price : Int
  sale_price : Int
  stock : Nat
  is_active : Bool
  weight_grams : Nat
deriving DecidableEq, Repr

/-- `catalog.models.Review`.  `rating` is a `PositiveSmallIntegerField`
(a 16-bit non-negative integer at the storage layer); the `# 1-5` range in
the source is a comment, not a constraint. -/
structure Review where
  id : Nat
  product : Nat
  user : Option Nat
  rating : Int
  title : String
  comment : String
  is_verified : Bool
  published : Bool
deriving DecidableEq, Repr

/-! ### orders.models (the rows the claims touch) -/

/-- `orders.models.OrderItem`: a snapshot line item with its own `name`,
`sku`, `unit_price`, `quantity`, `line_total` columns next to the protected
foreign keys `product` and `variant`. -/
structure OrderItem where
  id : Nat
  order : Nat
  product : Nat
  variant : Nat
  name : String
  sku : String
  unit_price : Int
  quantity : Nat
  line_total : Int
deriving DecidableEq, Repr

/-! ### Storage-layer state and operations

The database is the lists of persisted rows of the tables the claims touch.
Inserts enforce, in an explicit order, the primary-key, uniqueness, check and
foreign-key constraints the schema declares; a violated constraint surfaces
as a storage-engine error and leaves the state untouched (the operation
returns `Except.error` and no new state). -/

/-- A storage-engine failure: uniqueness conflict, check-constraint failure,
missing foreign key, or a `ProtectedError` from `on_delete=PROTECT`. -/
inductive DbError where
  | uniqueViolation (constraint : String)
  | checkViolation (constraint : String)
  | fkViolation (field : String)
  | protectedError
deriving DecidableEq, Repr

/-- The persisted rows of the tables the claims are about. -/
structure Db where
  categories : List Category
  brands : List Brand
  products : List Product
  variants : List ProductVariant
  reviews : List Review
  orderItems : List OrderItem
deriving DecidableEq, Repr

/-- `Category.objects.create(...)`: run `Category.save` (slug derivation),
then INSERT under the declared constraints: the primary key, `slug`
`unique=True` (global), and `unique_together = [("parent", "slug")]`.  SQL
treats NULLs as distinct in composite unique constraints, so the pair
constraint only applies when `parent` is non-NULL; the global `slug`
constraint applies always.  `parent` is a self-referential foreign key. -/
def createCategory (db : Db) (c0 : Category) : Except DbError Db :=
  let c := c0.save
  if db.categories.any fun k => k.id == c.id then
    .error (.uniqueViolation "pk")
  else if db.categories.any fun k => k.slug == c.slug then
    .error (.uniqueViolation "slug")
  else if db.categories.any fun k =>
      c.parent.isSome && k.parent == c.parent && k.slug == c.slug then
    .error (.uniqueViolation "parent_slug")
  else if !(match c.parent with
      | none => true
      | some pid => db.categories.any fun k => k.id == pid) then
    .error (.fkViolation "parent")
  else
    .ok { db with categories := db.categories ++ [c] }

/-- `Brand.objects.create(...)`: `Brand.save`, then INSERT under the primary
key and the `unique=True` constraints on `name` and `slug`. -/
def createBrand (db : Db) (b0 : Brand) : Except DbError Db :=
  let b := b0.save
  if db.brands.any fun k => k.id == b.id then
    .error (.uniqueViolation "pk")
  else if db.brands.any fun k => k.name == b.name then
    .error (.uniqueViolation "name")
  else if db.brands.any fun k => k.slug == b.slug then
    .error (.uniqueViolation "slug")
  else
    .ok { db with brands := db.brands ++ [b] }

/-- `Product.objects.create(...)`: `Product.save`, then INSERT under the
primary key, the global `slug` uniqueness, and the `category` / `brand`
foreign keys. -/
def createProduct (db : Db) (p0 : Product) : Except DbError Db :=
  let p := p0.save
  if db.products.any fun k => k.id == p.id then
    .error (.uniqueViolation "pk")
  else if db.products.any fun k => k.slug == p.slug then
    .error (.uniqueViolation "slug")
  else if !(db.categories.any fun k => k.id == p.category) then
    .error (.fkViolation "category")
  else if !(match p.brand with
      | none => true
      | some bid => db.brands.any fun k => k.id == bid) then
    .error (.fkViolation "brand")
  else
    .ok { db with products := db.products ++ [p] }

/-- `ProductVariant.objects.create(...)`: INSERT under the two declared
check constraints (`variant_sale_price_nonneg`, `variant_mrp_price_nonneg`),
the primary key, the `sku` `unique=True` constraint, and the `product`
foreign key. -/
def createVariant (db : Db) (v : ProductVariant) : Except DbError Db :=
  if v.sale_price < 0 then
    .error (.checkViolation "variant_sale_price_nonneg")
  else if v.mrp_price < 0 then
    .error (.checkViolation "variant_mrp_price_nonneg")
  else if db.variants.any fun w => w.id == v.id then
    .error (.uniqueViolation "pk")
  else if db.variants.any fun w => w.sku == v.sku then
    .error (.uniqueViolation "sku")
  else if !(db.products.any fun p => p.id == v.product) then
    .error (.fkViolation "product")
  else
    .ok { db with variants := db.variants ++ [v] }

/-- `Review.objects.create(...)`: INSERT under the `PositiveSmallIntegerField`
range of `rating` (a non-negative 16-bit integer: `0 <= rating <= 32767`; no
constraint restricts it to 1..5) and the `product` foreign key.  The `user`
foreign key targets the external `auth.User` table and is not modelled. -/
def createReview (db : Db) (r : Review) : Except DbError Db :=
  if r.rating < 0 || 32767 < r.rating then
    .error (.checkViolation "rating_nonneg")
  else if db.reviews.any fun w => w.id == r.id then
    .error (.uniqueViolation "pk")
  else if !(db.products.any fun p => p.id == r.product) then
    .error (.fkViolation "product")
  else
    .ok { db with reviews := db.reviews ++ [r] }

/-- The parent pointer of category `i` in the stored rows, `none` when `i`
is a root or absent. -/
def parentOf (cats : List Category) (i : Nat) : Option Nat :=
  match cats.find? fun k => k.id == i with
  | some k => k.parent
  | none => none

/-- Follow `k` parent pointers up from category `c`. -/
def iterParent (cats : List Category) : Nat → Nat → Option Nat
  | 0, c => some c
  | k + 1, c =>
    match parentOf cats c with
    | some p => iterParent cats k p
    | none => none

/-- Walking at most `fuel` parent pointers up from `c` reaches `root`. -/
def ancestorWithin (cats : List Category) : Nat → Nat → Nat → Bool
  | 0, root, c => c == root
  | fuel + 1, root, c =>
    c == root ||
      match parentOf cats c with
      | some p => ancestorWithin cats fuel root p
      | none => false

/-- Category `c` lies in the subtree rooted at `root` (walking parent
pointers; `cats.length` steps suffice, as proved below). -/
def inSubtree (cats : List Category) (root c : Nat) : Bool :=
  ancestorWithin cats cats.length root c

/-- Declarative counterpart of `inSubtree`: `c` is `root` itself or a
transitive child of it via the self-referential `parent` foreign key. -/
inductive Descendant (cats : List Category) (root : Nat) : Nat → Prop where
  | refl : Descendant cats root root
  | step {c p : Nat} (hp : parentOf cats c = some p)
      (h : Descendant cats root p) : Descendant cats root c

/-- `category.delete()`: the deletion collector follows
`Category.parent (on_delete=CASCADE)` and marks the whole subtree; the
`Product.category (on_delete=PROTECT)` foreign key raises `ProtectedError`
when any product references a collected category, and then nothing is
deleted. -/
def deleteCategory (db : Db) (root : Nat) : Except DbError Db :=
  if db.products.any fun p => inSubtree db.categories root p.category then
    .error .protectedError
  else
    .ok { db with
          categories :=
            db.categories.filter fun k => !inSubtree db.categories root k.id }

/-- `brand.delete()`: `Product.brand (on_delete=SET_NULL)` clears the brand
reference of every product of the brand; nothing blocks the deletion. -/
def deleteBrand (db : Db) (bid : Nat) : Db :=
  { db with
    brands := db.brands.filter fun b => b.id != bid,
    products := db.products.map fun p =>
      if p.brand = some bid then { p with brand := none } else p }

/-- UPDATE of `Product.name` on one row (a rename through the ORM). -/
def renameProduct (db : Db) (pid : Nat) (newName : String) : Db :=
  { db with
    products := db.products.map fun p =>
      if p.id = pid then { p with name := newName } else p }

/-- UPDATE of `ProductVariant.sku`, `mrp_price` and `sale_price` on one
row (a catalog change through the ORM). -/
def updateVariantListing (db : Db) (vid : Nat) (newSku : String)
    (newMrp newSale : Int) : Db :=
  { db with
    variants := db.variants.map fun v =>
      if v.id = vid then
        { v with sku := newSku, mrp_price := newMrp, sale_price := newSale }
      else v }

/-! ### Concrete fixtures used by witnesses and counterexamples -/

/-- Root category `Men`. -/
def exCatMen : Category := ⟨1, "Men", "men", none, "", true, 0⟩

/-- Root category `Women`. -/
def exCatWomen : Category := ⟨2, "Women", "women", none, "", true, 0⟩

/-- Child category `Shoes` under `Men`. -/
def exCatShoesMen : Category := ⟨3, "Shoes", "shoes", some 1, "", true, 0⟩

/-- Grandchild category `Sneakers` under `Shoes`. -/
def exCatSneakers : Category := ⟨4, "Sneakers", "sneakers", some 3, "", true, 0⟩

/-- A brand row. -/
def exBrand : Brand := ⟨5, "Arrow", "arrow"⟩

/-- A product in category 1 with brand 5. -/
def exProd : Product :=
  ⟨10, "Classic Oxford", "classic-oxford", 1, some 5, "", true, false,
    "", "", 99900, "INR", 0⟩

/-- A product in the grandchild category 4, without a brand. -/
def exProdDeep : Product :=
  ⟨11, "Canvas Sneaker", "canvas-sneaker", 4, none, "", true, false,
    "", "", 49900, "INR", 0⟩

/-- A variant of product 10. -/
def exVariant : ProductVariant :=
  ⟨30, 10, "OXF-BLU-M", [], 129900, 99900, 5, true, 300⟩

/-- An order item snapshotting product 10 / variant 30. -/
def exItem : OrderItem :=
  ⟨40, 100, 10, 30, "Classic Oxford", "OXF-BLU-M", 99900, 2, 199800⟩

/-- The empty database. -/
def emptyDb : Db := ⟨[], [], [], [], [], []⟩

/-- Category tree 1 ← 3 ← 4, a brand, products in categories 1 and 4, a
variant and an order item. -/
def exDb : Db :=
  ⟨[exCatMen, exCatWomen, exCatShoesMen, exCatSneakers], [exBrand],
    [exProd, exProdDeep], [exVariant], [], [exItem]⟩

/-- The same catalog without any products (so category deletion succeeds). -/
def exDbNoProducts : Db :=
  ⟨[exCatMen, exCatWomen, exCatShoesMen, exCatSneakers], [exBrand],
    [], [], [], []⟩

/-! ### Character-level facts about `slugify` -/

/-- `Char.isUpper` spelled with `Char.toNat`. -/
theorem char_isUpper_iff (c : Char) :
    c.isUpper = true ↔ 65 ≤ c.toNat ∧ c.toNat ≤ 90 := by
  simp [Char.isUpper, Char.toNat, UInt32.le_def, BitVec.le_def, UInt32.toNat,
    ge_iff_le]

/-- `Char.ofNat` of a valid code point round-trips through `Char.toNat`. -/
theorem char_toNat_ofNat_of_valid (n : Nat) (h : n.isValidChar) :
    (Char.ofNat n).toNat = n := by
  simp only [Char.ofNat, dif_pos h]
  simp [Char.ofNatAux, Char.toNat, UInt32.toNat, BitVec.toNat_ofNatLt]

/-- `Char.toLower` never returns an upper-case basic latin letter. -/
theorem toLower_not_isUpper (x : Char) : (Char.toLower x).isUpper = false := by
  simp only [Char.toLower]
  split
  · rename_i h
    obtain ⟨h1, h2⟩ := h
    have hv : (x.toNat + 32).isValidChar := Or.inl (by omega)
    have ht : (Char.ofNat (x.toNat + 32)).toNat = x.toNat + 32 :=
      char_toNat_ofNat_of_valid _ hv
    rw [Bool.eq_false_iff]
    intro hc
    have := (char_isUpper_iff _).mp hc
    omega
  · rename_i h
    rw [Bool.eq_false_iff]
    intro hc
    have := (char_isUpper_iff _).mp hc
    exact h ⟨by omega, by omega⟩

/-- Every character produced by `collapseAux` is a hyphen or a non-separator
character of the input. -/
theorem mem_collapseAux {c : Char} :
    ∀ {b : Bool} {l : List Char}, c ∈ collapseAux b l →
      c = '-' ∨ (c ∈ l ∧ isSep c = false) := by
  intro b l
  induction l generalizing b with
  | nil => intro h; cases h
  | cons d rest ih =>
    intro h
    simp only [collapseAux] at h
    by_cases hd : isSep d = true
    · rw [if_pos hd] at h
      cases b with
      | true =>
        rcases ih h with h1 | ⟨h1, h2⟩
        · exact Or.inl h1
        · exact Or.inr ⟨List.mem_cons_of_mem _ h1, h2⟩
      | false =>
        rcases List.mem_cons.mp h with h1 | h1
        · exact Or.inl h1
        · rcases ih h1 with h2 | ⟨h2, h3⟩
          · exact Or.inl h2
          · exact Or.inr ⟨List.mem_cons_of_mem _ h2, h3⟩
    · rw [if_neg hd] at h
      rcases List.mem_cons.mp h with h1 | h1
      · subst h1
        exact Or.inr ⟨List.mem_cons_self _ _, Bool.eq_false_iff.mpr hd⟩
      · rcases ih h1 with h2 | ⟨h2, h3⟩
        · exact Or.inl h2
        · exact Or.inr ⟨List.mem_cons_of_mem _ h2, h3⟩

/-- Stripping end characters only removes characters. -/
theorem mem_stripHyphenUnderscore {c : Char} {l : List Char}
    (h : c ∈ stripHyphenUnderscore l) : c ∈ l := by
  unfold stripHyphenUnderscore at h
  rw [List.mem_reverse] at h
  have h2 := (List.dropWhile_sublist _).subset h
  rw [List.mem_reverse] at h2
  exact (List.dropWhile_sublist _).subset h2

/-- Every character of a slug is a lower-case alphanumeric character, a
hyphen, or an underscore. -/
theorem slugify_chars (s : String) :
    ∀ ch ∈ (slugify s).data,
      (ch.isAlphanum = true ∨ ch = '-' ∨ ch = '_') ∧ ch.isUpper = false := by
  intro ch hch
  simp only [slugify] at hch
  have h1 := mem_stripHyphenUnderscore hch
  rcases mem_collapseAux h1 with h2 | ⟨h2, h3⟩
  · subst h2
    exact ⟨Or.inr (Or.inl rfl), by decide⟩
  · rw [List.mem_filter] at h2
    obtain ⟨h4, h5⟩ := h2
    have hsep : isSep ch = false := h3
    have hword : isWordChar ch = true := by
      simp only [isSep, Bool.or_eq_false_iff] at hsep
      simp only [Bool.or_eq_true] at h5
      rcases h5 with h5 | h5
      · rcases h5 with h5 | h5
        · exact h5
        · rw [h5] at hsep
          exact absurd hsep.1 (by simp)
      · rw [hsep.2] at h5
        cases h5
    have hlower : ch.isUpper = false := by
      rcases List.mem_map.mp h4 with ⟨x, _, hx⟩
      rw [← hx]
      exact toLower_not_isUpper x
    simp only [isWordChar, Bool.or_eq_true, beq_iff_eq] at hword
    rcases hword with h | h
    · exact ⟨Or.inl h, hlower⟩
    · exact ⟨Or.inr (Or.inr h), hlower⟩

/-! ### C1: slug derivation on save without an explicit slug -/

/-- C1.  A `Category`, `Brand` or `Product` saved without an explicit slug
stores the slugified form of its name — lower-cased, URL-safe (alphanumeric,
hyphen or underscore characters only) — truncated to the slug field maximum
length: 140 for `Category` and `Brand`, 220 for `Product`. -/
theorem save_blank_slug_derives (c : Category) (b : Brand) (p : Product)
    (hc : c.slug = "") (hb : b.slug = "") (hp : p.slug = "") :
    (c.save.slug = (slugify c.name).take 140 ∧
      b.save.slug = (slugify b.name).take 140 ∧
      p.save.slug = (slugify p.name).take 220) ∧
    (∀ ch ∈ c.save.slug.data,
      (ch.isAlphanum = true ∨ ch = '-' ∨ ch = '_') ∧ ch.isUpper = false) ∧
    (∀ ch ∈ b.save.slug.data,
      (ch.isAlphanum = true ∨ ch = '-' ∨ ch = '_') ∧ ch.isUpper = false) ∧
    (∀ ch ∈ p.save.slug.data,
      (ch.isAlphanum = true ∨ ch = '-' ∨ ch = '_') ∧ ch.isUpper = false) := by
  have hceq : c.save.slug = (slugify c.name).take 140 := by
    simp [Category.save, hc]
  have hbeq : b.save.slug = (slugify b.name).take 140 := by
    simp [Brand.save, hb]
  have hpeq : p.save.slug = (slugify p.name).take 220 := by
    simp [Product.save, hp]
  refine ⟨⟨hceq, hbeq, hpeq⟩, ?_, ?_, ?_⟩
  · intro ch hch
    rw [hceq] at hch
    rw [String.data_take] at hch
    exact slugify_chars _ ch (List.mem_of_mem_take hch)
  · intro ch hch
    rw [hbeq] at hch
    rw [String.data_take] at hch
    exact slugify_chars _ ch (List.mem_of_mem_take hch)
  · intro ch hch
    rw [hpeq] at hch
    rw [String.data_take] at hch
    exact slugify_chars _ ch (List.mem_of_mem_take hch)

/-- C1 witness: the property at a blank-slug category `Mens Shirts`, brand
`Arrow Co` and product `Classic Oxford`. -/
theorem save_blank_slug_derives_witness :
    ((⟨7, "Mens Shirts", "", none, "", true, 0⟩ : Category).slug = "" ∧
      (⟨8, "Arrow Co", ""⟩ : Brand).slug = "" ∧
      (⟨9, "Classic Oxford", "", 1, none, "", true, false, "", "", 0, "INR",
        0⟩ : Product).slug = "") ∧
    (⟨7, "Mens Shirts", "", none, "", true, 0⟩ : Category).save.slug =
      (slugify "Mens Shirts").take 140 ∧
    (⟨8, "Arrow Co", ""⟩ : Brand).save.slug = (slugify "Arrow Co").take 140 ∧
    (⟨9, "Classic Oxford", "", 1, none, "", true, false, "", "", 0, "INR",
      0⟩ : Product).save.slug = (slugify "Classic Oxford").take 220 :=
  ⟨⟨rfl, rfl, rfl⟩,
    (save_blank_slug_derives _ _ _ rfl rfl rfl).1⟩

/-! ### C2: a set slug is never re-derived -/

/-- C2.  Once a `Category`, `Brand` or `Product` has a non-blank slug, a
save is the identity — even after renaming, the slug (and every other
field) is left unchanged, so the slug is not re-derived from the new
name. -/
theorem save_keeps_existing_slug (c : Category) (b : Brand) (p : Product)
    (hc : c.slug ≠ "") (hb : b.slug ≠ "") (hp : p.slug ≠ "") :
    (∀ n, ({ c with name := n } : Category).save = { c with name := n }) ∧
    (∀ n, ({ b with name := n } : Brand).save = { b with name := n }) ∧
    (∀ n, ({ p with name := n } : Product).save = { p with name := n }) ∧
    (∀ n, ({ c with name := n } : Category).save.slug = c.slug) ∧
    (∀ n, ({ b with name := n } : Brand).save.slug = b.slug) ∧
    (∀ n, ({ p with name := n } : Product).save.slug = p.slug) := by
  have h1 : ∀ n, ({ c with name := n } : Category).save = { c with name := n } := by
    intro n
    simp [Category.save, hc]
  have h2 : ∀ n, ({ b with name := n } : Brand).save = { b with name := n } := by
    intro n
    simp [Brand.save, hb]
  have h3 : ∀ n, ({ p with name := n } : Product).save = { p with name := n } := by
    intro n
    simp [Product.save, hp]
  refine ⟨h1, h2, h3, fun n => ?_, fun n => ?_, fun n => ?_⟩
  · rw [h1 n]
  · rw [h2 n]
  · rw [h3 n]

/-- C2 witness: renaming the fixture category, brand and product and saving
again leaves the already-set slugs `men`, `arrow`, `classic-oxford`
unchanged. -/
theorem save_keeps_existing_slug_witness :
    (exCatMen.slug ≠ "" ∧ exBrand.slug ≠ "" ∧ exProd.slug ≠ "") ∧
    ({ exCatMen with name := "Gentlemen" } : Category).save.slug = "men" ∧
    ({ exBrand with name := "Arrow 2" } : Brand).save.slug = "arrow" ∧
    ({ exProd with name := "Oxford Redux" } : Product).save.slug =
      "classic-oxford" :=
  ⟨⟨by decide, by decide, by decide⟩,
    (save_keeps_existing_slug exCatMen exBrand exProd (by decide) (by decide)
        (by decide)).2.2.2.1 "Gentlemen",
    (save_keeps_existing_slug exCatMen exBrand exProd (by decide) (by decide)
        (by decide)).2.2.2.2.1 "Arrow 2",
    (save_keeps_existing_slug exCatMen exBrand exProd (by decide) (by decide)
        (by decide)).2.2.2.2.2 "Oxford Redux"⟩

/-! ### C10: derivation triggers whenever the slug is blank at save time -/

/-- Taking a prefix of the empty string gives the empty string. -/
theorem take_empty (n : Nat) : ("" : String).take n = "" := by
  apply String.ext
  rw [String.data_take]
  exact List.take_nil

/-- Saving a blank-slug category after a rename derives the slug from the
new name. -/
theorem cat_save_rederive (c1 : Category) (h : c1.slug = "") (n : String) :
    ({ c1 with name := n } : Category).save.slug = (slugify n).take 140 := by
  simp [Category.save, h]

/-- Saving a blank-slug brand after a rename derives the slug from the new
name. -/
theorem brand_save_rederive (b1 : Brand) (h : b1.slug = "") (n : String) :
    ({ b1 with name := n } : Brand).save.slug = (slugify n).take 140 := by
  simp [Brand.save, h]

/-- Saving a blank-slug product after a rename derives the slug from the
new name. -/
theorem prod_save_rederive (p1 : Product) (h : p1.slug = "") (n : String) :
    ({ p1 with name := n } : Product).save.slug = (slugify n).take 220 := by
  simp [Product.save, h]

/-- C10.  Slug derivation fires whenever the slug is blank at save time,
not only at first persistence: when slugifying the name yields the empty
string, the stored slug stays blank, and a later save re-derives the slug
from the name current at that save. -/
theorem blank_slug_rederived (c : Category) (b : Brand) (p : Product)
    (hc : c.slug = "") (hb : b.slug = "") (hp : p.slug = "") :
    (c.save.slug = (slugify c.name).take 140 ∧
      (slugify c.name = "" → c.save.slug = "" ∧
        ∀ n, ({ c.save with name := n } : Category).save.slug =
          (slugify n).take 140)) ∧
    (b.save.slug = (slugify b.name).take 140 ∧
      (slugify b.name = "" → b.save.slug = "" ∧
        ∀ n, ({ b.save with name := n } : Brand).save.slug =
          (slugify n).take 140)) ∧
    (p.save.slug = (slugify p.name).take 220 ∧
      (slugify p.name = "" → p.save.slug = "" ∧
        ∀ n, ({ p.save with name := n } : Product).save.slug =
          (slugify n).take 220)) := by
  have hceq : c.save.slug = (slugify c.name).take 140 := by
    simp [Category.save, hc]
  have hbeq : b.save.slug = (slugify b.name).take 140 := by
    simp [Brand.save, hb]
  have hpeq : p.save.slug = (slugify p.name).take 220 := by
    simp [Product.save, hp]
  refine ⟨⟨hceq, fun he => ?_⟩, ⟨hbeq, fun he => ?_⟩, ⟨hpeq, fun he => ?_⟩⟩
  · have hblank : c.save.slug = "" := by
      rw [hceq, he, take_empty]
    exact ⟨hblank, fun n => cat_save_rederive c.save hblank n⟩
  · have hblank : b.save.slug = "" := by
      rw [hbeq, he, take_empty]
    exact ⟨hblank, fun n => brand_save_rederive b.save hblank n⟩
  · have hblank : p.save.slug = "" := by
      rw [hpeq, he, take_empty]
    exact ⟨hblank, fun n => prod_save_rederive p.save hblank n⟩

/-- C10 witness: records named `!!!` (slugify yields the empty string) keep
a blank slug on save, and a later save after renaming to `Boots` derives
`boots`. -/
theorem blank_slug_rederived_witness :
    ((⟨12, "!!!", "", none, "", true, 0⟩ : Category).slug = "" ∧
      slugify "!!!" = "") ∧
    (⟨12, "!!!", "", none, "", true, 0⟩ : Category).save.slug = "" ∧
    (∀ n, ({ (⟨12, "!!!", "", none, "", true, 0⟩ : Category).save with
        name := n } : Category).save.slug = (slugify n).take 140) :=
  ⟨⟨rfl, rfl⟩,
    ((blank_slug_rederived (⟨12, "!!!", "", none, "", true, 0⟩ : Category)
        (⟨13, "!!!", ""⟩ : Brand)
        (⟨14, "!!!", "", 1, none, "", true, false, "", "", 0, "INR", 0⟩ :
          Product) rfl rfl rfl).1.2 rfl).1,
    ((blank_slug_rederived (⟨12, "!!!", "", none, "", true, 0⟩ : Category)
        (⟨13, "!!!", ""⟩ : Brand)
        (⟨14, "!!!", "", 1, none, "", true, false, "", "", 0, "INR", 0⟩ :
          Product) rfl rfl rfl).1.2 rfl).2⟩

/-! ### C3: Category slug uniqueness is global, not sibling-scoped -/

/-- C3 counterexample.  Two categories with the same slug under different
parents can NOT both be persisted: `shoes` already exists under parent 1,
and inserting a category with slug `shoes` under parent 2 hits the global
`unique=True` constraint on `slug`. -/
theorem cat_slug_not_sibling_scoped :
    (⟨6, "Shoes", "shoes", some 2, "", true, 0⟩ : Category).parent ≠
        exCatShoesMen.parent ∧
    (⟨6, "Shoes", "shoes", some 2, "", true, 0⟩ : Category).slug =
        exCatShoesMen.slug ∧
    exCatShoesMen ∈ exDb.categories ∧
    createCategory exDb ⟨6, "Shoes", "shoes", some 2, "", true, 0⟩ =
      .error (.uniqueViolation "slug") :=
  ⟨by decide, by decide, by decide, rfl⟩

/-- C3 amended.  The `slug` column carries `unique=True`, so Category slug
uniqueness is global: any insert whose (derived) slug equals the slug of an
existing category fails with a uniqueness violation, whether the parents
are equal (the `unique_together` sibling constraint) or different. -/
theorem cat_slug_globally_unique (db : Db) (c : Category)
    (h : ∃ k ∈ db.categories, k.slug = c.save.slug) :
    ∃ e, createCategory db c = .error e := by
  have hslug : (db.categories.any fun k => k.slug == c.save.slug) = true := by
    rw [List.any_eq_true]
    obtain ⟨k, hk, he⟩ := h
    exact ⟨k, hk, beq_iff_eq.mpr he⟩
  simp only [createCategory, hslug]
  split
  · exact ⟨_, rfl⟩
  · exact ⟨_, rfl⟩

set_option maxRecDepth 8192 in
/-- C3 amended witness: a blank-slug `Shoes` category under parent 2
derives slug `shoes`, which already exists under parent 1, and the insert
fails. -/
theorem cat_slug_globally_unique_witness :
    (∃ k ∈ exDb.categories,
      k.slug = (⟨6, "Shoes", "", some 2, "", true, 0⟩ : Category).save.slug) ∧
    ∃ e, createCategory exDb ⟨6, "Shoes", "", some 2, "", true, 0⟩ =
      .error e :=
  ⟨by decide, cat_slug_globally_unique exDb _ (by decide)⟩

/-! ### C4: Review ratings are only constrained to the non-negative
small-integer range, not to 1..5 -/

/-- C4 counterexample.  A review with rating 6 — outside 1..5 — is
persisted without error: no constraint enforces the `# 1-5` comment. -/
theorem review_rating_six_accepted :
    createReview exDb ⟨50, 10, none, 6, "Nice", "ok", false, true⟩ =
      .ok { exDb with
            reviews := [⟨50, 10, none, 6, "Nice", "ok", false, true⟩] } ∧
    ¬(1 ≤ (⟨50, 10, none, 6, "Nice", "ok", false, true⟩ : Review).rating ∧
      (⟨50, 10, none, 6, "Nice", "ok", false, true⟩ : Review).rating ≤ 5) :=
  ⟨rfl, by decide⟩

/-- C4 amended.  `rating` is a `PositiveSmallIntegerField`: a negative
rating fails its storage check, and every successfully inserted review has
`0 ≤ rating ≤ 32767` — values outside 1..5 such as 0 or 6 are accepted. -/
theorem review_rating_smallint_range (db : Db) (r : Review) :
    (r.rating < 0 →
      createReview db r = .error (.checkViolation "rating_nonneg")) ∧
    (∀ db', createReview db r = .ok db' →
      0 ≤ r.rating ∧ r.rating ≤ 32767 ∧ r ∈ db'.reviews) := by
  constructor
  · intro hneg
    simp [createReview, hneg]
  · intro db' hok
    unfold createReview at hok
    split at hok
    · cases hok
    · split at hok
      · cases hok
      · split at hok
        · cases hok
        · rename_i hcond _ _
          cases hok
          simp only [Bool.or_eq_true, decide_eq_true_eq, not_or] at hcond
          push_neg at hcond
          refine ⟨by omega, by omega, ?_⟩
          exact List.mem_append_right _ (List.mem_singleton_self r)

/-- C4 amended witness: rating −1 is rejected by the check, rating 4 is
inserted and satisfies the small-integer bounds. -/
theorem review_rating_smallint_range_witness :
    ((⟨51, 10, none, -1, "", "", false, true⟩ : Review).rating < 0 ∧
      createReview exDb ⟨51, 10, none, -1, "", "", false, true⟩ =
        .error (.checkViolation "rating_nonneg")) ∧
    (0 ≤ (⟨52, 10, none, 4, "", "", false, true⟩ : Review).rating ∧
      (⟨52, 10, none, 4, "", "", false, true⟩ : Review).rating ≤ 32767 ∧
      (⟨52, 10, none, 4, "", "", false, true⟩ : Review) ∈
        ({ exDb with
            reviews := [⟨52, 10, none, 4, "", "", false, true⟩] } : Db).reviews) :=
  ⟨⟨by decide,
      (review_rating_smallint_range exDb _).1 (by decide)⟩,
    (review_rating_smallint_range exDb _).2 _ rfl⟩

/-! ### C5: non-negative price check constraints on ProductVariant -/

/-- C5.  Inserting a variant with a negative `sale_price` or `mrp_price`
fails one of the declared check constraints, and any successful insert into
a state whose variants all have non-negative prices yields a state whose
variants all have non-negative prices. -/
theorem variant_price_checks (db : Db) (v : ProductVariant) :
    ((v.sale_price < 0 ∨ v.mrp_price < 0) →
      ∃ name, createVariant db v = .error (.checkViolation name)) ∧
    (∀ db', createVariant db v = .ok db' →
      (∀ w ∈ db.variants, 0 ≤ w.sale_price ∧ 0 ≤ w.mrp_price) →
      ∀ w ∈ db'.variants, 0 ≤ w.sale_price ∧ 0 ≤ w.mrp_price) := by
  constructor
  · intro hneg
    by_cases hs : v.sale_price < 0
    · exact ⟨"variant_sale_price_nonneg", by simp [createVariant, hs]⟩
    · have hm : v.mrp_price < 0 := by
        rcases hneg with h | h
        · exact absurd h hs
        · exact h
      exact ⟨"variant_mrp_price_nonneg", by simp [createVariant, hs, hm]⟩
  · intro db' hok hinv w hw
    unfold createVariant at hok
    split at hok
    · cases hok
    · split at hok
      · cases hok
      · split at hok
        · cases hok
        · split at hok
          · cases hok
          · split at hok
            · cases hok
            · rename_i hs hm _ _ _
              cases hok
              rcases List.mem_append.mp hw with h | h
              · exact hinv w h
              · rw [List.mem_singleton] at h
                subst h
                exact ⟨by omega, by omega⟩

/-- C5 witness: a variant with `sale_price = -5` is rejected by a check
constraint, and inserting the non-negative variant `OXF-BLU-L` keeps all
persisted prices non-negative. -/
theorem variant_price_checks_witness :
    (((⟨31, 10, "OXF-NEG", [], 100, -5, 0, true, 0⟩ :
        ProductVariant).sale_price < 0 ∨
      (⟨31, 10, "OXF-NEG", [], 100, -5, 0, true, 0⟩ :
        ProductVariant).mrp_price < 0) ∧
      (∃ name, createVariant exDb ⟨31, 10, "OXF-NEG", [], 100, -5, 0, true, 0⟩ =
        .error (.checkViolation name))) ∧
    (∀ w ∈ ({ exDb with
        variants := exDb.variants ++
          [⟨32, 10, "OXF-BLU-L", [], 129900, 99900, 3, true, 310⟩] } :
          Db).variants,
      0 ≤ w.sale_price ∧ 0 ≤ w.mrp_price) :=
  ⟨⟨Or.inl (by decide),
      (variant_price_checks exDb
          ⟨31, 10, "OXF-NEG", [], 100, -5, 0, true, 0⟩).1 (Or.inl (by decide))⟩,
    (variant_price_checks exDb
        ⟨32, 10, "OXF-BLU-L", [], 129900, 99900, 3, true, 310⟩).2
      { exDb with
        variants := exDb.variants ++
          [⟨32, 10, "OXF-BLU-L", [], 129900, 99900, 3, true, 310⟩] }
      rfl (by decide)⟩

/-! ### C6: SKU is globally unique across all variants -/

/-- C6.  Under the remaining constraints (non-negative prices, fresh
primary key, existing product), inserting a variant whose SKU equals the
SKU of any persisted variant — of the same product or of any other — fails
with a uniqueness violation, and inserting one with a fresh SKU
succeeds. -/
theorem variant_sku_globally_unique (db : Db) (v : ProductVariant)
    (hsale : 0 ≤ v.sale_price) (hmrp : 0 ≤ v.mrp_price)
    (hpk : ∀ w ∈ db.variants, w.id ≠ v.id)
    (hfk : ∃ p ∈ db.products, p.id = v.product) :
    ((∃ w ∈ db.variants, w.sku = v.sku) →
      createVariant db v = .error (.uniqueViolation "sku")) ∧
    ((∀ w ∈ db.variants, w.sku ≠ v.sku) →
      createVariant db v = .ok { db with variants := db.variants ++ [v] }) := by
  have h1 : ¬ v.sale_price < 0 := not_lt.mpr hsale
  have h2 : ¬ v.mrp_price < 0 := not_lt.mpr hmrp
  have h3 : (db.variants.any fun w => w.id == v.id) = false := by
    rw [List.any_eq_false]
    intro w hw
    simp only [beq_iff_eq]
    exact hpk w hw
  have h4 : (db.products.any fun p => p.id == v.product) = true := by
    rw [List.any_eq_true]
    obtain ⟨p, hp, he⟩ := hfk
    exact ⟨p, hp, beq_iff_eq.mpr he⟩
  constructor
  · intro hdup
    have h5 : (db.variants.any fun w => w.sku == v.sku) = true := by
      rw [List.any_eq_true]
      obtain ⟨w, hw, he⟩ := hdup
      exact ⟨w, hw, beq_iff_eq.mpr he⟩
    simp [createVariant, h1, h2, h3, h5]
  · intro hfresh
    have h5 : (db.variants.any fun w => w.sku == v.sku) = false := by
      rw [List.any_eq_false]
      intro w hw
      simp only [beq_iff_eq]
      exact hfresh w hw
    simp [createVariant, h1, h2, h3, h4, h5]

/-- C6 witness: a second variant reusing SKU `OXF-BLU-M` is rejected, a
variant with fresh SKU `OXF-BLU-XL` is persisted. -/
theorem variant_sku_globally_unique_witness :
    createVariant exDb ⟨33, 11, "OXF-BLU-M", [], 100, 100, 0, true, 0⟩ =
      .error (.uniqueViolation "sku") ∧
    createVariant exDb ⟨34, 10, "OXF-BLU-XL", [], 129900, 99900, 1, true, 320⟩ =
      .ok { exDb with
            variants := exDb.variants ++
              [⟨34, 10, "OXF-BLU-XL", [], 129900, 99900, 1, true, 320⟩] } :=
  ⟨(variant_sku_globally_unique exDb _ (by decide) (by decide) (by decide)
      ⟨exProdDeep, by decide, by decide⟩).1 ⟨exVariant, by decide, by decide⟩,
    (variant_sku_globally_unique exDb _ (by decide) (by decide) (by decide)
      ⟨exProd, by decide, by decide⟩).2 (by decide)⟩

/-! ### C7: deleting a Category with products is blocked, deleting a Brand
with products nulls the brand references -/

/-- A category is always in its own subtree, at any fuel. -/
theorem ancestorWithin_self (cats : List Category) (fuel root : Nat) :
    ancestorWithin cats fuel root root = true := by
  cases fuel <;> simp [ancestorWithin]

/-- C7.  `Product.category` is `on_delete=PROTECT`: deleting a category
directly referenced by a product raises `ProtectedError` (nothing is
deleted).  `Product.brand` is `on_delete=SET_NULL`: deleting a brand always
succeeds, every product survives with its brand reference nulled when it
pointed at the deleted brand, all other fields and tables unchanged. -/
theorem category_protected_brand_set_null (db : Db) (cid bid : Nat) :
    ((∃ p ∈ db.products, p.category = cid) →
      deleteCategory db cid = .error .protectedError) ∧
    ((deleteBrand db bid).products.length = db.products.length ∧
      (∀ b ∈ (deleteBrand db bid).brands, b.id ≠ bid) ∧
      (deleteBrand db bid).categories = db.categories ∧
      (deleteBrand db bid).variants = db.variants ∧
      (deleteBrand db bid).reviews = db.reviews ∧
      (deleteBrand db bid).orderItems = db.orderItems ∧
      (∀ p ∈ db.products, p.brand = some bid →
        { p with brand := none } ∈ (deleteBrand db bid).products) ∧
      (∀ p ∈ db.products, p.brand ≠ some bid →
        p ∈ (deleteBrand db bid).products)) := by
  constructor
  · intro ⟨p, hp, hcat⟩
    have hany : (db.products.any fun q =>
        inSubtree db.categories cid q.category) = true := by
      rw [List.any_eq_true]
      refine ⟨p, hp, ?_⟩
      rw [hcat]
      exact ancestorWithin_self _ _ _
    unfold deleteCategory
    rw [if_pos hany]
  · refine ⟨List.length_map _ _, ?_, rfl, rfl, rfl, rfl, ?_, ?_⟩
    · intro b hb
      rcases List.mem_filter.mp hb with ⟨_, hne⟩
      simpa using hne
    · intro p hp hbrand
      have hmem := List.mem_map_of_mem (fun q : Product =>
        if q.brand = some bid then { q with brand := none } else q) hp
      simp only at hmem
      rw [if_pos hbrand] at hmem
      exact hmem
    · intro p hp hbrand
      have hmem := List.mem_map_of_mem (fun q : Product =>
        if q.brand = some bid then { q with brand := none } else q) hp
      simp only at hmem
      rw [if_neg hbrand] at hmem
      exact hmem

/-- C7 witness: category 1 has product 10, so its deletion is blocked;
deleting brand 5 keeps product 10 with its brand nulled and removes no
product. -/
theorem category_protected_brand_set_null_witness :
    (∃ p ∈ exDb.products, p.category = 1) ∧
    deleteCategory exDb 1 = .error .protectedError ∧
    ({ exProd with brand := none } : Product) ∈ (deleteBrand exDb 5).products ∧
    (deleteBrand exDb 5).products.length = exDb.products.length :=
  ⟨⟨exProd, by decide, rfl⟩,
    (category_protected_brand_set_null exDb 1 5).1 ⟨exProd, by decide, rfl⟩,
    (category_protected_brand_set_null exDb 1 5).2.2.2.2.2.2.2.1 exProd
      (by decide) rfl,
    (category_protected_brand_set_null exDb 1 5).2.1⟩

/-! ### C8: OrderItem fields are point-in-time snapshots -/

/-- C8.  Renaming a product and changing a variant SKU or prices updates
the targeted catalog rows but leaves every persisted `OrderItem` — and in
particular its `name`, `sku`, `unit_price`, `quantity` and `line_total`
snapshot columns — exactly as it was. -/
theorem order_item_snapshot (db : Db) (pid vid : Nat)
    (newName newSku : String) (m s : Int) :
    (renameProduct db pid newName).orderItems = db.orderItems ∧
    (updateVariantListing db vid newSku m s).orderItems = db.orderItems ∧
    (updateVariantListing (renameProduct db pid newName) vid newSku m
        s).orderItems = db.orderItems ∧
    (∀ oi ∈ db.orderItems,
      oi ∈ (updateVariantListing (renameProduct db pid newName) vid newSku m
        s).orderItems) ∧
    (∀ p ∈ db.products, p.id = pid →
      { p with name := newName } ∈ (renameProduct db pid newName).products) ∧
    (∀ v ∈ db.variants, v.id = vid →
      { v with sku := newSku, mrp_price := m, sale_price := s } ∈
        (updateVariantListing db vid newSku m s).variants) := by
  refine ⟨rfl, rfl, rfl, fun oi hoi => hoi, ?_, ?_⟩
  · intro p hp hid
    have hmem := List.mem_map_of_mem (fun q : Product =>
      if q.id = pid then { q with name := newName } else q) hp
    simp only at hmem
    rw [if_pos hid] at hmem
    exact hmem
  · intro v hv hid
    have hmem := List.mem_map_of_mem (fun w : ProductVariant =>
      if w.id = vid then
        { w with sku := newSku, mrp_price := m, sale_price := s } else w) hv
    simp only at hmem
    rw [if_pos hid] at hmem
    exact hmem

/-- C8 witness: after renaming product 10 and re-pricing variant 30, the
order item still carries the original snapshot name, SKU and prices while
the catalog rows changed. -/
theorem order_item_snapshot_witness :
    exItem ∈ (updateVariantListing (renameProduct exDb 10 "Premium Oxford")
      30 "OXF-V2" 159900 119900).orderItems ∧
    ({ exProd with name := "Premium Oxford" } : Product) ∈
      (renameProduct exDb 10 "Premium Oxford").products ∧
    ({ exVariant with sku := "OXF-V2", mrp_price := 159900, sale_price := 119900 } : ProductVariant) ∈
      (updateVariantListing exDb 30 "OXF-V2" 159900 119900).variants ∧
    exItem.name = "Classic Oxford" ∧ exItem.sku = "OXF-BLU-M" :=
  ⟨(order_item_snapshot exDb 10 30 "Premium Oxford" "OXF-V2" 159900
      119900).2.2.2.1 exItem (by decide),
    (order_item_snapshot exDb 10 30 "Premium Oxford" "OXF-V2" 159900
      119900).2.2.2.2.1 exProd (by decide) rfl,
    (order_item_snapshot exDb 10 30 "Premium Oxford" "OXF-V2" 159900
      119900).2.2.2.2.2 exVariant (by decide) rfl,
    rfl, rfl⟩

/-! ### C9: cascade over the category subtree, blocked by protected products

The executable collector (`inSubtree`, a parent walk bounded by
`cats.length`) is proved equivalent to the declarative `Descendant`
relation; the bound is justified by a pigeonhole argument on the id list. -/

/-- Zero parent steps stay put. -/
theorem iterParent_zero (cats : List Category) (c : Nat) :
    iterParent cats 0 c = some c := rfl

/-- One more parent step peels `parentOf` off the front. -/
theorem iterParent_succ (cats : List Category) (k c : Nat) :
    iterParent cats (k + 1) c =
      match parentOf cats c with
      | some p => iterParent cats k p
      | none => none := rfl

/-- Parent walks compose. -/
theorem iterParent_add (cats : List Category) (a b c : Nat) :
    iterParent cats (a + b) c =
      match iterParent cats a c with
      | some x => iterParent cats b x
      | none => none := by
  induction a generalizing c with
  | zero =>
    rw [Nat.zero_add]
    rfl
  | succ a ih =>
    have h1 : a + 1 + b = (a + b) + 1 := by omega
    rw [h1, iterParent_succ, iterParent_succ]
    cases hp : parentOf cats c with
    | none => rfl
    | some p => exact ih p

/-- The fuelled walk finds `root` exactly when some iterate of the parent
map within the fuel equals `root`. -/
theorem ancestorWithin_iff_iter (cats : List Category) (root : Nat) :
    ∀ fuel c, ancestorWithin cats fuel root c = true ↔
      ∃ k, k ≤ fuel ∧ iterParent cats k c = some root := by
  intro fuel
  induction fuel with
  | zero =>
    intro c
    simp only [ancestorWithin]
    constructor
    · intro h
      exact ⟨0, Nat.le_refl 0, by rw [iterParent_zero, beq_iff_eq.mp h]⟩
    · rintro ⟨k, hk, hit⟩
      have hk0 : k = 0 := by omega
      subst hk0
      rw [iterParent_zero] at hit
      exact beq_iff_eq.mpr (Option.some.inj hit)
  | succ fuel ih =>
    intro c
    simp only [ancestorWithin, Bool.or_eq_true]
    constructor
    · intro h
      rcases h with h | h
      · exact ⟨0, by omega, by rw [iterParent_zero, beq_iff_eq.mp h]⟩
      · cases hp : parentOf cats c with
        | none => rw [hp] at h; cases h
        | some p =>
          rw [hp] at h
          obtain ⟨k, hk, hit⟩ := (ih p).mp h
          refine ⟨k + 1, by omega, ?_⟩
          rw [iterParent_succ, hp]
          exact hit
    · rintro ⟨k, hk, hit⟩
      cases k with
      | zero =>
        rw [iterParent_zero] at hit
        exact Or.inl (beq_iff_eq.mpr (Option.some.inj hit))
      | succ k =>
        rw [iterParent_succ] at hit
        cases hp : parentOf cats c with
        | none => rw [hp] at hit; cases hit
        | some p =>
          rw [hp] at hit
          exact Or.inr ((ih p).mpr ⟨k, by omega, hit⟩)

/-- `Descendant` is exactly reachability of `root` by iterating the parent
map. -/
theorem descendant_iff_iter (cats : List Category) (root c : Nat) :
    Descendant cats root c ↔ ∃ k, iterParent cats k c = some root := by
  constructor
  · intro h
    induction h with
    | refl => exact ⟨0, rfl⟩
    | step hp _ ih =>
      obtain ⟨k, hk⟩ := ih
      refine ⟨k + 1, ?_⟩
      rw [iterParent_succ, hp]
      exact hk
  · rintro ⟨k, hk⟩
    induction k generalizing c with
    | zero =>
      rw [iterParent_zero] at hk
      rw [Option.some.inj hk]
      exact Descendant.refl
    | succ k ih =>
      rw [iterParent_succ] at hk
      cases hp : parentOf cats c with
      | none => rw [hp] at hk; cases hk
      | some p =>
        rw [hp] at hk
        exact Descendant.step hp (ih p hk)

/-- Pigeonhole bound: if the parent walk reaches `root` at all, it reaches
it within `cats.length` steps — the shortest walk visits pairwise distinct
ids, all of which occur in the stored rows. -/
theorem iter_reach_bound (cats : List Category) (root c k : Nat)
    (hk : iterParent cats k c = some root) :
    ∃ j, j ≤ cats.length ∧ iterParent cats j c = some root := by
  have hex : ∃ n, iterParent cats n c = some root := ⟨k, hk⟩
  let K := Nat.find hex
  have hK : iterParent cats K c = some root := Nat.find_spec hex
  have hmin : ∀ m, m < K → iterParent cats m c ≠ some root :=
    fun m hm => Nat.find_min hex hm
  refine ⟨K, ?_, hK⟩
  by_contra hgt
  push_neg at hgt
  have hsome : ∀ m, m ≤ K → ∃ x, iterParent cats m c = some x := by
    intro m hm
    have hadd := iterParent_add cats m (K - m) c
    rw [Nat.add_sub_cancel' hm] at hadd
    cases hx : iterParent cats m c with
    | none =>
      rw [hx] at hadd
      rw [hadd] at hK
      cases hK
    | some x => exact ⟨x, rfl⟩
  have hmem : ∀ m, m < K → ∀ x, iterParent cats m c = some x →
      x ∈ cats.map fun r => r.id := by
    intro m hm x hx
    obtain ⟨y, hy⟩ := hsome (m + 1) (by omega)
    rw [iterParent_add cats m 1, hx] at hy
    have h1x : iterParent cats 1 x = some y := hy
    rw [iterParent_succ] at h1x
    cases hp : parentOf cats x with
    | none =>
      rw [hp] at h1x
      cases h1x
    | some p =>
      unfold parentOf at hp
      cases hfind : cats.find? fun r => r.id == x with
      | none => rw [hfind] at hp; cases hp
      | some row =>
        have hrow : row ∈ cats := List.mem_of_find?_eq_some hfind
        have hpr : (fun r : Category => r.id == x) row = true :=
          List.find?_some (p := fun r : Category => r.id == x) hfind
        have hpr2 : row.id = x := beq_iff_eq.mp hpr
        rw [← hpr2]
        exact List.mem_map_of_mem _ hrow
  have hinj : ∀ i j, i < j → j ≤ K →
      iterParent cats i c ≠ iterParent cats j c := by
    intro i j hij hjK heq
    obtain ⟨x, hx⟩ := hsome i (by omega)
    have h1 := iterParent_add cats j (K - j) c
    rw [Nat.add_sub_cancel' hjK, ← heq, hx] at h1
    have h2 := iterParent_add cats i (K - j) c
    rw [hx] at h2
    apply hmin (i + (K - j)) (by omega)
    rw [h2, ← h1]
    exact hK
  have hcard : (Finset.range (cats.length + 1)).card ≤
      (cats.map fun r => r.id).toFinset.card := by
    apply Finset.card_le_card_of_injOn fun m => (iterParent cats m c).getD 0
    · intro m hm
      rw [Finset.mem_range] at hm
      have hmK : m < K := by omega
      obtain ⟨x, hx⟩ := hsome m (by omega)
      simp only [hx, Option.getD_some]
      exact List.mem_toFinset.mpr (hmem m hmK x hx)
    · intro i hi j hj hgij
      simp only [Finset.coe_range, Set.mem_Iio] at hi hj
      by_contra hne
      rcases Nat.lt_trichotomy i j with hlt | hey | hlt
      · obtain ⟨x, hx⟩ := hsome i (by omega)
        obtain ⟨y, hy⟩ := hsome j (by omega)
        apply hinj i j hlt (by omega)
        rw [hx, hy]
        simp only at hgij
        rw [hx, hy] at hgij
        simp only [Option.getD_some] at hgij
        rw [hgij]
      · exact hne hey
      · obtain ⟨x, hx⟩ := hsome i (by omega)
        obtain ⟨y, hy⟩ := hsome j (by omega)
        apply hinj j i hlt (by omega)
        rw [hy, hx]
        simp only at hgij
        rw [hx, hy] at hgij
        simp only [Option.getD_some] at hgij
        rw [hgij]
  rw [Finset.card_range] at hcard
  have hle : (cats.map fun r => r.id).toFinset.card ≤
      (cats.map fun r => r.id).length := List.toFinset_card_le _
  rw [List.length_map] at hle
  omega

/-- The executable subtree test agrees with the declarative `Descendant`
relation. -/
theorem inSubtree_iff_descendant (cats : List Category) (root c : Nat) :
    inSubtree cats root c = true ↔ Descendant cats root c := by
  rw [inSubtree, ancestorWithin_iff_iter, descendant_iff_iter]
  constructor
  · rintro ⟨k, _, hk⟩
    exact ⟨k, hk⟩
  · rintro ⟨k, hk⟩
    obtain ⟨j, hj, hjit⟩ := iter_reach_bound cats root c k hk
    exact ⟨j, hj, hjit⟩

/-- C9.  Deleting a category raises `ProtectedError` exactly when some
product references a category of the subtree (the transitive-child closure
of the root under the cascading `parent` relation); on success the
surviving categories are precisely the stored ones outside that subtree,
and every other table is untouched. -/
theorem category_delete_cascades_subtree (db : Db) (root : Nat) :
    (deleteCategory db root = .error .protectedError ↔
      ∃ p ∈ db.products, Descendant db.categories root p.category) ∧
    (∀ db1, deleteCategory db root = .ok db1 →
      db1.brands = db.brands ∧ db1.products = db.products ∧
      db1.variants = db.variants ∧ db1.reviews = db.reviews ∧
      db1.orderItems = db.orderItems ∧
      (∀ k ∈ db.categories,
        (k ∈ db1.categories ↔ ¬ Descendant db.categories root k.id)) ∧
      (∀ k ∈ db1.categories, k ∈ db.categories)) := by
  constructor
  · constructor
    · intro herr
      by_cases hany : (db.products.any fun p =>
          inSubtree db.categories root p.category) = true
      · obtain ⟨p, hp, hsub⟩ := List.any_eq_true.mp hany
        exact ⟨p, hp, (inSubtree_iff_descendant _ _ _).mp hsub⟩
      · unfold deleteCategory at herr
        rw [if_neg hany] at herr
        cases herr
    · rintro ⟨p, hp, hdesc⟩
      have hany : (db.products.any fun p =>
          inSubtree db.categories root p.category) = true :=
        List.any_eq_true.mpr
          ⟨p, hp, (inSubtree_iff_descendant _ _ _).mpr hdesc⟩
      unfold deleteCategory
      rw [if_pos hany]
  · intro db1 hok
    unfold deleteCategory at hok
    by_cases hany : (db.products.any fun p =>
        inSubtree db.categories root p.category) = true
    · rw [if_pos hany] at hok
      cases hok
    · rw [if_neg hany] at hok
      cases hok
      refine ⟨rfl, rfl, rfl, rfl, rfl, ?_, ?_⟩
      · intro k hk
        constructor
        · intro hkin hdesc
          rcases List.mem_filter.mp hkin with ⟨_, hcond⟩
          rw [Bool.not_eq_true'] at hcond
          have htrue := (inSubtree_iff_descendant db.categories root
            k.id).mpr hdesc
          rw [hcond] at htrue
          cases htrue
        · intro hnd
          refine List.mem_filter.mpr ⟨hk, ?_⟩
          rw [Bool.not_eq_true']
          cases hbool : inSubtree db.categories root k.id
          · rfl
          · exact absurd ((inSubtree_iff_descendant _ _ _).mp hbool) hnd
      · intro k hk
        exact (List.mem_filter.mp hk).1

/-- C9 witness: category 1 has the chain 1 <- 3 <- 4 below it; a product
in grandchild category 4 blocks the deletion of category 1, and with no
products the deletion of category 1 removes exactly categories 1, 3 and 4,
keeping category 2. -/
theorem category_delete_cascades_subtree_witness :
    (∃ p ∈ exDb.products, Descendant exDb.categories 1 p.category) ∧
    deleteCategory exDb 1 = .error .protectedError ∧
    deleteCategory exDbNoProducts 1 =
      .ok { exDbNoProducts with categories := [exCatWomen] } ∧
    (exCatSneakers ∈ exDbNoProducts.categories →
      (exCatSneakers ∈
          ({ exDbNoProducts with categories := [exCatWomen] } : Db).categories ↔
        ¬ Descendant exDbNoProducts.categories 1 exCatSneakers.id)) := by
  have hD : Descendant exDb.categories 1 exProdDeep.category :=
    Descendant.step (p := 3) rfl (Descendant.step (p := 1) rfl Descendant.refl)
  refine ⟨⟨exProdDeep, by decide, hD⟩,
    (category_delete_cascades_subtree exDb 1).1.mpr ⟨exProdDeep, by decide, hD⟩,
    rfl, ?_⟩
  intro hmem
  exact ((category_delete_cascades_subtree exDbNoProducts 1).2
    { exDbNoProducts with categories := [exCatWomen] } rfl).2.2.2.2.2.1
    exCatSneakers hmem

end FashionHub
